import Mathlib

/-!
Shallow embedding of `ink/geometry/mesh.cc` (the attribute quantization and
packing pipeline of the Ink mesh type) and proofs about it.

Floating point values are modelled by `FloatM`: a finite value carries an
exact rational, and the non-finite values (NaN, ±infinity) are explicit
constructors, so the finiteness validation of `Mesh::Create` is faithful.
Byte buffers are `List Nat` (each entry one byte).  External collaborators
(the quantization-parameter resolver `mesh_internal::ComputeCodingParamsArray`
and the per-type routines `mesh_internal::PackAttribute` /
`mesh_internal::UnpackAttribute`) are parameters of the embedded functions;
collaborators whose behaviour the spec pins down (the index byte codec, the
format stride accessor, the vertex-count accessor) are modelled from the spec.
-/

set_option autoImplicit false

namespace InkMesh

/-- Model of a C++ `float` value: a finite value carries an exact rational,
and NaN and the two infinities are explicit. -/
inductive FloatM where
  | fin (q : ℚ)
  | nan
  | posInf
  | negInf
deriving DecidableEq

instance : Inhabited FloatM := ⟨FloatM.fin 0⟩

/-- Embedding of `ink_internal::IsFinite`. -/
def isFinite : FloatM → Bool
  | .fin _ => true
  | _ => false

/-- Embedding of the C++ `operator<` on floats: comparisons involving NaN are
false, the infinities compare as usual, finite values compare as rationals. -/
def flt : FloatM → FloatM → Bool
  | .fin a, .fin b => decide (a < b)
  | .fin _, .posInf => true
  | .negInf, .fin _ => true
  | .negInf, .posInf => true
  | _, _ => false

/-- Embedding of `MeshAttributeCodingParams::ComponentCodingParams`
(`offset` and `scale`). -/
structure ComponentCodingParams where
  offset : ℚ
  scale : ℚ
deriving DecidableEq

instance : Inhabited ComponentCodingParams := ⟨⟨0, 1⟩⟩

/-- Embedding of `MeshAttributeCodingParams`: one `(offset, scale)` pair per
component of the attribute. -/
structure MeshAttributeCodingParams where
  components : List ComponentCodingParams
deriving DecidableEq

instance : Inhabited MeshAttributeCodingParams := ⟨⟨[]⟩⟩

/-- Embedding of `MeshAttributeBounds`: per-component minimum and maximum. -/
structure MeshAttributeBounds where
  minimum : List FloatM
  maximum : List FloatM
deriving DecidableEq

instance : Inhabited MeshAttributeBounds := ⟨⟨[], []⟩⟩

/-- Embedding of `MeshFormat::Attribute` as consumed by `mesh.cc`: the type
tag is represented by its derived data (`MeshFormat::ComponentCount(type)`),
plus the packed byte offset and packed byte width. -/
structure Attribute where
  componentCount : Nat
  packedOffset : Nat
  packedWidth : Nat
deriving DecidableEq

instance : Inhabited Attribute := ⟨⟨1, 0, 1⟩⟩

/-- Embedding of `MeshFormat` as consumed by `mesh.cc`: the ordered attribute
list. -/
structure MeshFormat where
  attributes : List Attribute
deriving DecidableEq

/-- Total component count of a format: the sum the loop at the top of
`Mesh::Create` computes (`total_attr_components`). -/
def MeshFormat.totalComponents (fmt : MeshFormat) : Nat :=
  (fmt.attributes.map (fun a => a.componentCount)).sum

/-- Modelled from the spec: `MeshFormat::PackedVertexStride()` is an external
accessor; the spec fixes "stride = sum of widths". -/
def MeshFormat.packedVertexStride (fmt : MeshFormat) : Nat :=
  (fmt.attributes.map (fun a => a.packedWidth)).sum

/-- Index of the first float column belonging to attribute `a` (the running
`span_idx` of the loops in `mesh.cc`). -/
def MeshFormat.spanStart (fmt : MeshFormat) (a : Nat) : Nat :=
  ((fmt.attributes.take a).map (fun x => x.componentCount)).sum

/-- Format invariant stated by the spec (§3): non-empty attribute list,
component counts between 1 and 4, positive widths, and a consecutive
non-overlapping packed layout (each offset is the sum of the previous
widths). -/
def MeshFormat.valid (fmt : MeshFormat) : Prop :=
  fmt.attributes ≠ [] ∧
  (∀ a ∈ fmt.attributes,
      1 ≤ a.componentCount ∧ a.componentCount ≤ 4 ∧ 1 ≤ a.packedWidth) ∧
  (∀ i, i < fmt.attributes.length →
      (fmt.attributes.getD i default).packedOffset =
        ((fmt.attributes.take i).map (fun x => x.packedWidth)).sum)

/-- Overwrite `src.length` entries of `dst` starting at `start`, keeping the
rest; writes past the end of `dst` are dropped (a C++ span write never grows
the buffer). -/
def listOverwrite {α : Type} (dst : List α) (start : Nat) (src : List α) :
    List α :=
  dst.take start ++ src.take (dst.length - start) ++ dst.drop (start + src.length)

/-- The byte slice `[start, start + len)` of a buffer. -/
def listSlice {α : Type} (l : List α) (start len : Nat) : List α :=
  (l.drop start).take len

/-- Value-level embedding of `std::minmax_element` (via
`absl::c_minmax_element`) on a float range, using the C++ `operator<`
(`flt`).  On the empty range the C++ iterators may not be dereferenced; the
result here is arbitrary (NaN), and reachability proofs show the empty case
never arises from `Mesh::Create`. -/
def minmaxFold : List FloatM → FloatM × FloatM
  | [] => (FloatM.nan, FloatM.nan)
  | x :: xs =>
    xs.foldl
      (fun p y => (if flt y p.1 then y else p.1, if flt p.2 y then y else p.2))
      (x, x)

/-- The attribute loop of `ComputeAttributeBounds` in `mesh.cc`: one
`MeshAttributeBounds` per attribute, with per-component min/max taken from
the columns starting at the running `span_idx`. -/
def boundsLoop : List Attribute → List (List FloatM) → Nat →
    List MeshAttributeBounds
  | [], _, _ => []
  | attr :: rest, vas, spanIdx =>
    ⟨(List.range attr.componentCount).map
        (fun c => (minmaxFold (vas.getD (spanIdx + c) [])).1),
      (List.range attr.componentCount).map
        (fun c => (minmaxFold (vas.getD (spanIdx + c) [])).2)⟩ ::
      boundsLoop rest vas (spanIdx + attr.componentCount)

/-- Embedding of `ComputeAttributeBounds` in `mesh.cc`: `none` when the mesh
has zero vertices, otherwise per-attribute per-component bounds.  The
`CHECK(!vertex_attributes.empty())` at its entry is not a value of this
function; the reachability theorem for it shows the argument is never empty
when called from `Mesh::Create`. -/
def computeAttributeBounds (fmt : MeshFormat) (vas : List (List FloatM)) :
    Option (List MeshAttributeBounds) :=
  if (vas.headD []).isEmpty then none
  else some (boundsLoop fmt.attributes vas 0)

/-- Embedding of `MakeCodingParamsArrayForEmptyMesh` in `mesh.cc`: identity
params (offset 0, scale 1) for every component of every attribute. -/
def makeCodingParamsArrayForEmptyMesh (fmt : MeshFormat) :
    List MeshAttributeCodingParams :=
  fmt.attributes.map
    (fun attr => ⟨List.replicate attr.componentCount ⟨0, 1⟩⟩)

/-- Modelled from the spec: the external
`mesh_internal::WriteTriangleIndicesToByteArray` writes triangle `t`'s three
indices as fixed-width (`kB` bytes each) little-endian unsigned integers at
byte offset `3·kB·t`. -/
def encodeLE : Nat → Nat → List Nat
  | 0, _ => []
  | kk + 1, nn => nn % 256 :: encodeLE kk (nn / 256)

/-- Modelled from the spec: the decoder matching `encodeLE` (the external
index byte codec is required to be consistent between writer and reader). -/
def decodeLE : List Nat → Nat
  | [] => 0
  | b :: bs => b + 256 * decodeLE bs

/-- Modelled from the spec: write of one triangle's three indices into the
index buffer (see `encodeLE`). -/
def writeTriangleIndicesToByteArray (t kB : Nat) (inds : List Nat)
    (buf : List Nat) : List Nat :=
  listOverwrite buf (3 * kB * t) (inds.flatMap (encodeLE kB))

/-- Embedding of the index-packing part of `Mesh::Create` (lines 155-161):
resize the buffer to `kBytesPerIndex * triangle_indices.size()` and write
each triangle in turn. -/
def packIndexData (kB : Nat) (tris : List Nat) : List Nat :=
  let nTriangles := tris.length / 3
  (List.range nTriangles).foldl
    (fun buf i => writeTriangleIndicesToByteArray i kB ((tris.drop (3 * i)).take 3) buf)
    (List.replicate (kB * tris.length) 0)

/-- Modelled from the spec: `Mesh::TriangleIndices` reads triangle `t`'s
three indices back from the packed index buffer (fixed-width fields at
`[t×3×kB, (t+1)×3×kB)`, decoded by the codec consistent with the writer). -/
def readTriangleIndices (kB : Nat) (buf : List Nat) (t : Nat) : List Nat :=
  (List.range 3).map (fun j => decodeLE ((buf.drop ((3 * t + j) * kB)).take kB))

/-- Type of the external per-type `mesh_internal::PackAttribute` routine:
attribute (type), coding params, unpacked component floats, producing the
packed bytes for the attribute's `packed_width`-byte field. -/
def PackFn : Type :=
  Attribute → MeshAttributeCodingParams → List FloatM → List Nat

/-- Type of the external per-type `mesh_internal::UnpackAttribute` routine. -/
def UnpackFn : Type :=
  Attribute → MeshAttributeCodingParams → List Nat → List FloatM

/-- Type of the external `mesh_internal::ComputeCodingParamsArray` resolver;
its error is opaque to this core and propagates out of `Mesh::Create`. -/
def ResolverFn : Type :=
  MeshFormat → List MeshAttributeBounds →
    List (Option MeshAttributeCodingParams) →
    Except String (List MeshAttributeCodingParams)

/-- The component gather of `Mesh::PackVertexByteData`'s inner loop:
`unpacked[component_idx] = vertex_attributes[span_idx][vertex_idx]`. -/
def gatherComponents (vas : List (List FloatM)) (spanIdx nComp v : Nat) :
    List FloatM :=
  (List.range nComp).map (fun c => (vas.getD (spanIdx + c) []).getD v FloatM.nan)

/-- The per-vertex attribute loop of `Mesh::PackVertexByteData`: for each
attribute, gather its component values for vertex `v`, pack them with the
external routine, and write the bytes at
`vertex_offset + attr.packed_offset` (the destination span is
`attr.packed_width` bytes, so at most that many bytes are written). -/
def packVertex (packAttr : PackFn) (fmt : MeshFormat)
    (vas : List (List FloatM)) (cps : List MeshAttributeCodingParams)
    (v : Nat) (buf0 : List Nat) : List Nat :=
  let vertexOffset := v * fmt.packedVertexStride
  (fmt.attributes.enum.foldl
    (fun st ia =>
      let attr := ia.2
      let unpacked := gatherComponents vas st.2 attr.componentCount v
      let packed := (packAttr attr (cps.getD ia.1 default) unpacked).take attr.packedWidth
      (listOverwrite st.1 (vertexOffset + attr.packedOffset) packed,
        st.2 + attr.componentCount))
    (buf0, 0)).1

/-- Embedding of `Mesh::PackVertexByteData`: a buffer of
`n_vertices * PackedVertexStride()` bytes, filled vertex by vertex. -/
def packVertexByteData (packAttr : PackFn) (fmt : MeshFormat)
    (vas : List (List FloatM)) (cps : List MeshAttributeCodingParams) :
    List Nat :=
  let n := (vas.headD []).length
  (List.range n).foldl (fun buf v => packVertex packAttr fmt vas cps v buf)
    (List.replicate (n * fmt.packedVertexStride) 0)

/-- The unequal-lengths scan of `Mesh::Create` (loop from `i = 1`): first
index with a column length different from `n`, together with that length. -/
def firstUnequalFrom : List (List FloatM) → Nat → Nat → Option (Nat × Nat)
  | [], _, _ => none
  | c :: cs, i, n =>
    if c.length ≠ n then some (i, c.length) else firstUnequalFrom cs (i + 1) n

/-- The finiteness scan of `Mesh::Create` (loop from `i = 0`): first column
index containing a non-finite value. -/
def firstNonFinite : List (List FloatM) → Nat → Option Nat
  | [], _ => none
  | c :: cs, i => if c.all isFinite then firstNonFinite cs (i + 1) else some i

/-- The errors `Mesh::Create` can return, one constructor per
`absl::InvalidArgumentError` site, carrying exactly the values the
`absl::Substitute` call interpolates; `resolverError` wraps the status
propagated from the external resolver. -/
inductive MeshError where
  | wrongNumAttrs (expected found : Nat)
  | tooManyVertices (found max : Nat)
  | unequalLengths (idx found expected : Nat)
  | nonFinite (idx : Nat)
  | notDivisibleBy3 (count : Nat)
  | triangleIndexOutOfRange (vertices : Nat)
  | resolverError (e : String)
deriving DecidableEq

/-- The mesh aggregate assembled by `Mesh::Create` (the fields of
`Mesh::Data` in the header, as the spec's §3 describes them). -/
structure Mesh where
  format : MeshFormat
  unpackingParams : List MeshAttributeCodingParams
  attributeBounds : Option (List MeshAttributeBounds)
  vertexData : List Nat
  indexData : List Nat
deriving DecidableEq

instance : Inhabited Mesh := ⟨⟨⟨[]⟩, [], none, [], []⟩⟩

/-- Embedding of `Mesh::Create`, parameterized by `k = kBytesPerIndex` and
the external resolver and pack routine.  The validation checks appear in
source order. -/
def Mesh.create (k : Nat) (resolver : ResolverFn) (packAttr : PackFn)
    (fmt : MeshFormat) (vas : List (List FloatM)) (tris : List Nat)
    (pp : List (Option MeshAttributeCodingParams)) : Except MeshError Mesh :=
  if fmt.totalComponents ≠ vas.length then
    .error (.wrongNumAttrs fmt.totalComponents vas.length) else
  if 2 ^ (8 * k) < (vas.headD []).length then
    .error (.tooManyVertices (vas.headD []).length (2 ^ (8 * k))) else
  match firstUnequalFrom (vas.drop 1) 1 (vas.headD []).length with
  | some p => .error (.unequalLengths p.1 p.2 (vas.headD []).length)
  | none =>
  match firstNonFinite vas 0 with
  | some i => .error (.nonFinite i)
  | none =>
  if tris.length % 3 ≠ 0 then .error (.notDivisibleBy3 tris.length) else
  if (tris.all fun t => decide (t < (vas.headD []).length)) = false then
    .error (.triangleIndexOutOfRange (vas.headD []).length) else
  match computeAttributeBounds fmt vas with
  | some bounds =>
    match resolver fmt bounds pp with
    | .error e => .error (.resolverError e)
    | .ok cps =>
      .ok ⟨fmt, cps, some bounds, packVertexByteData packAttr fmt vas cps,
        packIndexData k tris⟩
  | none =>
    let cps := makeCodingParamsArrayForEmptyMesh fmt
    .ok ⟨fmt, cps, none, packVertexByteData packAttr fmt vas cps,
      packIndexData k tris⟩

/-- Modelled from the spec: the `Mesh::VertexCount` accessor (declared in the
header); the packed buffer holds `vertex_count × stride` bytes. -/
def Mesh.vertexCount (m : Mesh) : Nat :=
  m.vertexData.length / m.format.packedVertexStride

/-- Embedding of `Mesh::PackedVertexAttribute`: the byte span of length
`attr.packed_width` starting at
`vertex_index * VertexStride() + attr.packed_offset`. -/
def Mesh.packedVertexAttribute (m : Mesh) (v a : Nat) : List Nat :=
  let attr := m.format.attributes.getD a default
  (m.vertexData.drop (v * m.format.packedVertexStride + attr.packedOffset)).take
    attr.packedWidth

/-- Embedding of `Mesh::FloatVertexAttribute`: unpack the packed byte span of
the attribute with the stored unpacking params, via the external
`UnpackAttribute` routine. -/
def Mesh.floatVertexAttribute (unpA : UnpackFn) (m : Mesh) (v a : Nat) :
    List FloatM :=
  unpA (m.format.attributes.getD a default) (m.unpackingParams.getD a default)
    (m.packedVertexAttribute v a)

/-! ### Helper lemmas: buffer writes -/

theorem listOverwrite_length {α : Type} (dst : List α) (start : Nat)
    (src : List α) : (listOverwrite dst start src).length = dst.length := by
  unfold listOverwrite
  simp only [List.length_append, List.length_take, List.length_drop]
  omega

theorem listOverwrite_prefix {α : Type} (p r src : List α) :
    listOverwrite (p ++ r) p.length src = p ++ listOverwrite r 0 src := by
  unfold listOverwrite
  have h1 : (p ++ r).take p.length = p := List.take_left p r
  have h2 : (p ++ r).length - p.length = r.length := by
    simp [List.length_append]
  have h3 : (p ++ r).drop (p.length + src.length) = r.drop src.length :=
    List.drop_append src.length
  rw [h1, h2, h3]
  simp [List.append_assoc]

theorem listOverwrite_zero_of_le {α : Type} (r src : List α)
    (h : src.length ≤ r.length) :
    listOverwrite r 0 src = src ++ r.drop src.length := by
  unfold listOverwrite
  simp [List.take_of_length_le h]

/-! ### Helper lemmas: index codec -/

theorem encodeLE_length (kB : Nat) : ∀ n, (encodeLE kB n).length = kB := by
  induction kB with
  | zero => intro n; rfl
  | succ kk ih => intro n; simp [encodeLE, ih]

theorem decodeLE_encodeLE (kB : Nat) : ∀ n, n < 256 ^ kB →
    decodeLE (encodeLE kB n) = n := by
  induction kB with
  | zero =>
    intro n h
    simp only [pow_zero, Nat.lt_one_iff] at h
    simp [encodeLE, decodeLE, h]
  | succ kk ih =>
    intro n h
    have hdiv : n / 256 < 256 ^ kk := by
      have : n < 256 ^ kk * 256 := by
        rw [← pow_succ]; exact h
      omega
    simp only [encodeLE, decodeLE, ih (n / 256) hdiv]
    exact Nat.mod_add_div n 256

/-! ### Helper lemmas: sums of constant widths -/

theorem sum_map_const_of {β : Type} (g : β → Nat) (c : Nat) :
    ∀ (l : List β), (∀ x ∈ l, g x = c) → (l.map g).sum = c * l.length := by
  intro l
  induction l with
  | nil => intro _; simp
  | cons x xs ih =>
    intro h
    simp only [List.map_cons, List.sum_cons, List.length_cons,
      ih (fun y hy => h y (List.mem_cons_of_mem x hy)),
      h x (List.mem_cons_self x xs)]
    ring

theorem length_flatMap_const {α β : Type} (f : β → List α) (c : Nat)
    (l : List β) (h : ∀ x ∈ l, (f x).length = c) :
    (l.flatMap f).length = c * l.length := by
  rw [List.length_flatMap]
  exact sum_map_const_of _ c l h

theorem flatMap_drop_const {α β : Type} (c : Nat) (f : β → List α) :
    ∀ (l : List β) (i : Nat), (∀ x ∈ l, (f x).length = c) →
      (l.flatMap f).drop (c * i) = (l.drop i).flatMap f := by
  intro l
  induction l with
  | nil => intro i _; simp
  | cons x xs ih =>
    intro i h
    match i with
    | 0 => simp
    | j + 1 =>
      have hx : c * (j + 1) = (f x).length + c * j := by
        rw [h x (List.mem_cons_self x xs)]; ring
      simp only [List.flatMap_cons, List.drop_succ_cons, hx, List.drop_append]
      exact ih j (fun y hy => h y (List.mem_cons_of_mem x hy))

/-! ### Helper lemmas: the index-packing fold writes the whole buffer -/

theorem foldl_overwrite_eq_flatMap {α : Type} (c : Nat) (w : Nat → List α) :
    ∀ (n : Nat) (B : List α), (∀ i, i < n → (w i).length = c) →
      c * n ≤ B.length →
      (List.range n).foldl (fun buf i => listOverwrite buf (c * i) (w i)) B
        = (List.range n).flatMap w ++ B.drop (c * n) := by
  intro n
  induction n with
  | zero => intro B _ _; simp
  | succ n ih =>
    intro B hw hB
    rw [List.range_succ, List.foldl_append, List.flatMap_append,
      ih B (fun i hi => hw i (Nat.lt_succ_of_lt hi))
        (le_trans (Nat.mul_le_mul_left c (Nat.le_succ n)) hB)]
    have hlen : ((List.range n).flatMap w).length = c * n := by
      rw [length_flatMap_const w c _
        (fun x hx => hw x (Nat.lt_succ_of_lt (List.mem_range.mp hx)))]
      simp
    simp only [List.foldl_cons, List.foldl_nil, List.flatMap_cons,
      List.flatMap_nil, List.append_nil]
    rw [← hlen, listOverwrite_prefix, hlen]
    rw [listOverwrite_zero_of_le _ _ (by
      rw [hw n (Nat.lt_succ_self n), List.length_drop]
      have hcn : c * (n + 1) = c * n + c := by ring
      omega)]
    rw [hw n (Nat.lt_succ_self n), List.drop_drop, List.append_assoc]
    have : c * n + c = c * (n + 1) := by ring
    rw [this]

theorem range_flatMap_chunks3 {α : Type} (g : Nat → List α) (tris : List Nat) :
    ∀ (T : Nat), 3 * T ≤ tris.length →
      (List.range T).flatMap
          (fun j => ((tris.drop (3 * j)).take 3).flatMap g)
        = (tris.take (3 * T)).flatMap g := by
  intro T
  induction T with
  | zero => intro _; simp
  | succ T ih =>
    intro hT
    rw [List.range_succ, List.flatMap_append,
      ih (le_trans (by omega) hT)]
    have h1 : 3 * (T + 1) = 3 * T + 3 := by ring
    rw [h1, List.take_add, List.flatMap_append]
    simp

theorem packIndexData_eq_flatMap (kB : Nat) (tris : List Nat)
    (h3 : tris.length % 3 = 0) :
    packIndexData kB tris = tris.flatMap (encodeLE kB) := by
  have hlen : tris.length = 3 * (tris.length / 3) := by omega
  have hw : ∀ i, i < tris.length / 3 →
      ((fun j => ((tris.drop (3 * j)).take 3).flatMap (encodeLE kB)) i).length
        = 3 * kB := by
    intro i hi
    simp only
    rw [length_flatMap_const _ kB _ (fun x _ => encodeLE_length kB x)]
    have : ((tris.drop (3 * i)).take 3).length = 3 := by
      rw [List.length_take, List.length_drop]
      omega
    rw [this]; ring
  have heq : 3 * kB * (tris.length / 3) = kB * tris.length := by
    conv_rhs => rw [hlen]
    ring
  have key := foldl_overwrite_eq_flatMap (3 * kB)
    (fun j => ((tris.drop (3 * j)).take 3).flatMap (encodeLE kB))
    (tris.length / 3) (List.replicate (kB * tris.length) 0) hw
    (by rw [List.length_replicate]; exact le_of_eq heq)
  have hchunks := range_flatMap_chunks3 (encodeLE kB) tris (tris.length / 3)
    (by omega)
  have hB : (List.replicate (kB * tris.length) (0 : Nat)).drop
      (3 * kB * (tris.length / 3)) = [] := by
    apply List.eq_nil_of_length_eq_zero
    rw [List.length_drop, List.length_replicate, heq]
    omega
  have htake : tris.take (3 * (tris.length / 3)) = tris :=
    List.take_of_length_le (by omega)
  unfold packIndexData writeTriangleIndicesToByteArray
  exact key.trans (by rw [hchunks, htake, hB, List.append_nil])

theorem flatMap_slice_encode (kB : Nat) (tris : List Nat) (idx : Nat)
    (hidx : idx < tris.length) :
    ((tris.flatMap (encodeLE kB)).drop (kB * idx)).take kB
      = encodeLE kB (tris.getD idx 0) := by
  rw [flatMap_drop_const kB (encodeLE kB) tris idx
    (fun x _ => encodeLE_length kB x)]
  have htl := List.take_left (encodeLE kB tris[idx])
    ((List.drop (idx + 1) tris).flatMap (encodeLE kB))
  rw [encodeLE_length kB tris[idx]] at htl
  rw [List.drop_eq_getElem_cons hidx, List.flatMap_cons, htl,
    List.getD_eq_getElem _ _ hidx]

theorem readTriangleIndices_packIndexData (kB : Nat) (tris : List Nat)
    (t : Nat) (h3 : tris.length % 3 = 0) (ht : 3 * t + 2 < tris.length)
    (hrange : ∀ i ∈ tris, i < 256 ^ kB) :
    readTriangleIndices kB (packIndexData kB tris) t
      = [tris.getD (3 * t) 0, tris.getD (3 * t + 1) 0,
          tris.getD (3 * t + 2) 0] := by
  rw [packIndexData_eq_flatMap kB tris h3]
  have helt : ∀ j, 3 * t + j < tris.length →
      decodeLE (((tris.flatMap (encodeLE kB)).drop ((3 * t + j) * kB)).take kB)
        = tris.getD (3 * t + j) 0 := by
    intro j hj
    rw [Nat.mul_comm (3 * t + j) kB, flatMap_slice_encode kB tris _ hj]
    apply decodeLE_encodeLE
    rw [List.getD_eq_getElem _ _ hj]
    exact hrange _ (List.getElem_mem hj)
  show List.map _ (List.range 3) = _
  rw [show List.range 3 = [0, 1, 2] from rfl]
  simp only [List.map_cons, List.map_nil]
  rw [helt 0 (by omega), helt 1 (by omega), helt 2 (by omega),
    Nat.add_zero]

/-! ### Helper lemmas: the validation scans -/

theorem firstUnequalFrom_eq_none_iff (n : Nat) :
    ∀ (cs : List (List FloatM)) (i : Nat),
      firstUnequalFrom cs i n = none ↔ ∀ c ∈ cs, c.length = n := by
  intro cs
  induction cs with
  | nil => intro i; simp [firstUnequalFrom]
  | cons c cs ih =>
    intro i
    by_cases h : c.length = n
    · simp [firstUnequalFrom, h, ih (i + 1)]
    · simp [firstUnequalFrom, h]

theorem firstUnequalFrom_eq_some (n : Nat) :
    ∀ (cs : List (List FloatM)) (i j f : Nat),
      firstUnequalFrom cs i n = some (j, f) →
      i ≤ j ∧ (cs.getD (j - i) []).length = f ∧ f ≠ n := by
  intro cs
  induction cs with
  | nil => intro i j f h; simp [firstUnequalFrom] at h
  | cons c cs ih =>
    intro i j f h
    by_cases hc : c.length = n
    · rw [firstUnequalFrom, if_neg (by simp [hc])] at h
      obtain ⟨h1, h2, h3⟩ := ih (i + 1) j f h
      refine ⟨by omega, ?_, h3⟩
      have : j - i = (j - (i + 1)) + 1 := by omega
      rw [this, List.getD_cons_succ]
      exact h2
    · rw [firstUnequalFrom, if_pos (by simp [hc])] at h
      obtain ⟨rfl, rfl⟩ := Prod.mk.injEq .. ▸ Option.some.inj h
      simp [hc]

theorem firstNonFinite_eq_none_iff :
    ∀ (cs : List (List FloatM)) (i : Nat),
      firstNonFinite cs i = none ↔
        ∀ c ∈ cs, ∀ x ∈ c, isFinite x = true := by
  intro cs
  induction cs with
  | nil => intro i; simp [firstNonFinite]
  | cons c cs ih =>
    intro i
    by_cases h : c.all isFinite
    · rw [firstNonFinite, if_pos h, ih (i + 1)]
      rw [List.all_eq_true] at h
      constructor
      · intro hall c' hc'
        rcases List.mem_cons.mp hc' with rfl | hmem
        · exact h
        · exact hall c' hmem
      · intro hall c' hc'
        exact hall c' (List.mem_cons_of_mem c hc')
    · rw [firstNonFinite, if_neg h]
      rw [List.all_eq_true] at h
      push_neg at h
      obtain ⟨x, hx, hfx⟩ := h
      constructor
      · intro hcontra; simp at hcontra
      · intro hall
        exact absurd (hall c (List.mem_cons_self c cs) x hx) hfx

theorem firstNonFinite_eq_some :
    ∀ (cs : List (List FloatM)) (i j : Nat),
      firstNonFinite cs i = some j →
      i ≤ j ∧ ∃ x ∈ cs.getD (j - i) [], isFinite x = false := by
  intro cs
  induction cs with
  | nil => intro i j h; simp [firstNonFinite] at h
  | cons c cs ih =>
    intro i j h
    by_cases hc : c.all isFinite
    · rw [firstNonFinite, if_pos hc] at h
      obtain ⟨h1, h2⟩ := ih (i + 1) j h
      refine ⟨by omega, ?_⟩
      have : j - i = (j - (i + 1)) + 1 := by omega
      rw [this, List.getD_cons_succ]
      exact h2
    · rw [firstNonFinite, if_neg hc] at h
      obtain rfl := Option.some.inj h
      rw [List.all_eq_true] at hc
      push_neg at hc
      obtain ⟨x, hx, hfx⟩ := hc
      exact ⟨le_refl _, x, by simpa using hx, by simpa using hfx⟩

/-! ### Helper lemmas: vertex-buffer length -/

theorem foldl_length_invariant {β : Type} (f : List Nat → β → List Nat)
    (h : ∀ buf b, (f buf b).length = buf.length) :
    ∀ (l : List β) (buf : List Nat), (l.foldl f buf).length = buf.length := by
  intro l
  induction l with
  | nil => intro buf; rfl
  | cons b bs ih => intro buf; rw [List.foldl_cons, ih, h]

theorem packVertex_length (packAttr : PackFn) (fmt : MeshFormat)
    (vas : List (List FloatM)) (cps : List MeshAttributeCodingParams)
    (v : Nat) (buf0 : List Nat) :
    (packVertex packAttr fmt vas cps v buf0).length = buf0.length := by
  unfold packVertex
  generalize fmt.attributes.enum = l
  suffices h : ∀ (l : List (Nat × Attribute)) (buf : List Nat) (s : Nat),
      ((l.foldl (fun st ia =>
        (listOverwrite st.1 (v * fmt.packedVertexStride + ia.2.packedOffset)
          ((packAttr ia.2 (cps.getD ia.1 default)
            (gatherComponents vas st.2 ia.2.componentCount v)).take
              ia.2.packedWidth),
         st.2 + ia.2.componentCount)) (buf, s)).1).length = buf.length by
    exact h l buf0 0
  intro l
  induction l with
  | nil => intro buf s; rfl
  | cons ia l ih =>
    intro buf s
    rw [List.foldl_cons, ih, listOverwrite_length]

theorem packVertexByteData_length (packAttr : PackFn) (fmt : MeshFormat)
    (vas : List (List FloatM)) (cps : List MeshAttributeCodingParams) :
    (packVertexByteData packAttr fmt vas cps).length
      = (vas.headD []).length * fmt.packedVertexStride := by
  unfold packVertexByteData
  rw [foldl_length_invariant _
    (fun buf v => packVertex_length packAttr fmt vas cps v buf),
    List.length_replicate]

/-! ### The six validation rules of the spec (§4.1), as predicates on the
raw input.  `rule<i>Violated` states that rule `i` is violated. -/

/-- Rule 1: column count equals the format's total component count. -/
def rule1Violated (fmt : MeshFormat) (vas : List (List FloatM)) : Prop :=
  fmt.totalComponents ≠ vas.length

/-- Rule 2: vertex count (length of column 0) within the index-width limit. -/
def rule2Violated (k : Nat) (vas : List (List FloatM)) : Prop :=
  2 ^ (8 * k) < (vas.headD []).length

/-- Rule 3: all columns of equal length. -/
def rule3Violated (vas : List (List FloatM)) : Prop :=
  ∃ c ∈ vas, c.length ≠ (vas.headD []).length

/-- Rule 4: every value in every column is finite. -/
def rule4Violated (vas : List (List FloatM)) : Prop :=
  ∃ c ∈ vas, ∃ x ∈ c, isFinite x = false

/-- Rule 5: triangle-index count is a multiple of 3. -/
def rule5Violated (tris : List Nat) : Prop :=
  tris.length % 3 ≠ 0

/-- Rule 6: every triangle index is less than the vertex count. -/
def rule6Violated (vas : List (List FloatM)) (tris : List Nat) : Prop :=
  ∃ i ∈ tris, (vas.headD []).length ≤ i

theorem getD_drop_nat {α : Type} (l : List α) (m i : Nat) (d : α) :
    (l.drop m).getD i d = l.getD (m + i) d := by
  rw [List.getD_eq_getD_get?, List.getD_eq_getD_get?]
  congr 1
  rw [List.get?_eq_getElem?, List.get?_eq_getElem?]
  exact List.getElem?_drop l m i

theorem rule3_iff_scan (vas : List (List FloatM)) :
    ¬ rule3Violated vas ↔
      firstUnequalFrom (vas.drop 1) 1 (vas.headD []).length = none := by
  rw [firstUnequalFrom_eq_none_iff]
  unfold rule3Violated
  push_neg
  cases vas with
  | nil => simp
  | cons c cs =>
    simp only [List.drop_succ_cons, List.drop_zero, List.headD_cons]
    constructor
    · intro h c' hc'
      exact h c' (List.mem_cons_of_mem c hc')
    · intro h c' hc'
      rcases List.mem_cons.mp hc' with rfl | hm
      · rfl
      · exact h c' hm

theorem rule4_iff_scan (vas : List (List FloatM)) :
    ¬ rule4Violated vas ↔ firstNonFinite vas 0 = none := by
  rw [firstNonFinite_eq_none_iff]
  unfold rule4Violated
  constructor
  · intro h c hc x hx
    by_contra hxf
    exact h ⟨c, hc, x, hx, by simpa using hxf⟩
  · rintro h ⟨c, hc, x, hx, hxf⟩
    rw [h c hc x hx] at hxf
    simp at hxf

theorem rule6_iff_all (vas : List (List FloatM)) (tris : List Nat) :
    rule6Violated vas tris ↔
      (tris.all fun t => decide (t < (vas.headD []).length)) = false := by
  unfold rule6Violated
  constructor
  · rintro ⟨i, hi, hni⟩
    rw [← Bool.not_eq_true, List.all_eq_true]
    intro hall
    have := hall i hi
    simp only [decide_eq_true_eq] at this
    omega
  · intro h
    rw [← Bool.not_eq_true, List.all_eq_true] at h
    push_neg at h
    obtain ⟨i, hi, hdec⟩ := h
    refine ⟨i, hi, ?_⟩
    by_contra hlt
    push_neg at hlt
    exact hdec (decide_eq_true hlt)

theorem cols_eq_of_scan_none {vas : List (List FloatM)}
    (hu : firstUnequalFrom (vas.drop 1) 1 (vas.headD []).length = none) :
    ∀ c ∈ vas, c.length = (vas.headD []).length := by
  have h := (rule3_iff_scan vas).mpr hu
  unfold rule3Violated at h
  push_neg at h
  exact h

/-! ### Structure of `Mesh::Create`: first violated rule wins; inversion of
success -/

theorem create_violation_cases (k : Nat) (r : ResolverFn) (pA : PackFn)
    (fmt : MeshFormat) (vas : List (List FloatM)) (tris : List Nat)
    (pp : List (Option MeshAttributeCodingParams)) :
    (rule1Violated fmt vas →
      Mesh.create k r pA fmt vas tris pp
        = .error (.wrongNumAttrs fmt.totalComponents vas.length)) ∧
    (¬ rule1Violated fmt vas → rule2Violated k vas →
      Mesh.create k r pA fmt vas tris pp
        = .error (.tooManyVertices (vas.headD []).length (2 ^ (8 * k)))) ∧
    (¬ rule1Violated fmt vas → ¬ rule2Violated k vas → rule3Violated vas →
      ∃ i f, 1 ≤ i ∧ (vas.getD i []).length = f ∧
        f ≠ (vas.headD []).length ∧
        Mesh.create k r pA fmt vas tris pp
          = .error (.unequalLengths i f (vas.headD []).length)) ∧
    (¬ rule1Violated fmt vas → ¬ rule2Violated k vas → ¬ rule3Violated vas →
      rule4Violated vas →
      ∃ i, (∃ x ∈ vas.getD i [], isFinite x = false) ∧
        Mesh.create k r pA fmt vas tris pp = .error (.nonFinite i)) ∧
    (¬ rule1Violated fmt vas → ¬ rule2Violated k vas → ¬ rule3Violated vas →
      ¬ rule4Violated vas → rule5Violated tris →
      Mesh.create k r pA fmt vas tris pp
        = .error (.notDivisibleBy3 tris.length)) ∧
    (¬ rule1Violated fmt vas → ¬ rule2Violated k vas → ¬ rule3Violated vas →
      ¬ rule4Violated vas → ¬ rule5Violated tris → rule6Violated vas tris →
      Mesh.create k r pA fmt vas tris pp
        = .error (.triangleIndexOutOfRange (vas.headD []).length)) ∧
    (¬ rule1Violated fmt vas → ¬ rule2Violated k vas → ¬ rule3Violated vas →
      ¬ rule4Violated vas → ¬ rule5Violated tris →
      ¬ rule6Violated vas tris →
      (∃ m, Mesh.create k r pA fmt vas tris pp = .ok m) ∨
      (∃ e, Mesh.create k r pA fmt vas tris pp
        = .error (.resolverError e))) := by
  refine ⟨?_, ?_, ?_, ?_, ?_, ?_, ?_⟩
  · intro h1
    unfold rule1Violated at h1
    unfold Mesh.create
    rw [if_pos h1]
  · intro h1 h2
    unfold rule1Violated at h1
    unfold rule2Violated at h2
    unfold Mesh.create
    rw [if_neg h1, if_pos h2]
  · intro h1 h2 h3
    unfold rule1Violated at h1
    unfold rule2Violated at h2
    have hne : firstUnequalFrom (vas.drop 1) 1 (vas.headD []).length
        ≠ none := by
      intro hnone
      exact absurd h3 ((rule3_iff_scan vas).mpr hnone)
    obtain ⟨p, hp⟩ := Option.ne_none_iff_exists'.mp hne
    obtain ⟨hp1, hp2, hp3⟩ :=
      firstUnequalFrom_eq_some (vas.headD []).length (vas.drop 1) 1 p.1 p.2
        (by rw [hp])
    refine ⟨p.1, p.2, hp1, ?_, hp3, ?_⟩
    · rw [getD_drop_nat vas 1 (p.1 - 1) []] at hp2
      have : 1 + (p.1 - 1) = p.1 := by omega
      rw [this] at hp2
      exact hp2
    · unfold Mesh.create
      rw [if_neg h1, if_neg h2, hp]
  · intro h1 h2 h3 h4
    unfold rule1Violated at h1
    unfold rule2Violated at h2
    have hfne : firstNonFinite vas 0 ≠ none := by
      intro hnone
      exact absurd h4 ((rule4_iff_scan vas).mpr hnone)
    obtain ⟨i, hi⟩ := Option.ne_none_iff_exists'.mp hfne
    obtain ⟨_, hx⟩ := firstNonFinite_eq_some vas 0 i hi
    refine ⟨i, by simpa using hx, ?_⟩
    unfold Mesh.create
    rw [if_neg h1, if_neg h2, (rule3_iff_scan vas).mp h3, hi]
  · intro h1 h2 h3 h4 h5
    unfold rule1Violated at h1
    unfold rule2Violated at h2
    unfold rule5Violated at h5
    unfold Mesh.create
    rw [if_neg h1, if_neg h2, (rule3_iff_scan vas).mp h3,
      (rule4_iff_scan vas).mp h4, if_pos h5]
  · intro h1 h2 h3 h4 h5 h6
    unfold rule1Violated at h1
    unfold rule2Violated at h2
    unfold rule5Violated at h5
    unfold Mesh.create
    rw [if_neg h1, if_neg h2, (rule3_iff_scan vas).mp h3,
      (rule4_iff_scan vas).mp h4, if_neg h5,
      if_pos ((rule6_iff_all vas tris).mp h6)]
  · intro h1 h2 h3 h4 h5 h6
    unfold rule1Violated at h1
    unfold rule2Violated at h2
    unfold rule5Violated at h5
    have h6' : ¬ ((tris.all fun t =>
        decide (t < (vas.headD []).length)) = false) := by
      intro hf
      exact h6 ((rule6_iff_all vas tris).mpr hf)
    unfold Mesh.create
    rw [if_neg h1, if_neg h2, (rule3_iff_scan vas).mp h3,
      (rule4_iff_scan vas).mp h4, if_neg h5, if_neg h6']
    split
    · next p heq => exact Option.noConfusion heq
    · split
      · next i heq => exact Option.noConfusion heq
      · split
        · next bounds hb =>
          split
          · next e hr => right; exact ⟨e, rfl⟩
          · next cps hr => left; exact ⟨_, rfl⟩
        · next hb => left; exact ⟨_, rfl⟩

theorem create_ok_inv {k : Nat} {r : ResolverFn} {pA : PackFn}
    {fmt : MeshFormat} {vas : List (List FloatM)} {tris : List Nat}
    {pp : List (Option MeshAttributeCodingParams)} {m : Mesh}
    (h : Mesh.create k r pA fmt vas tris pp = .ok m) :
    fmt.totalComponents = vas.length ∧
    (vas.headD []).length ≤ 2 ^ (8 * k) ∧
    (∀ c ∈ vas, c.length = (vas.headD []).length) ∧
    (∀ c ∈ vas, ∀ x ∈ c, isFinite x = true) ∧
    tris.length % 3 = 0 ∧
    (∀ i ∈ tris, i < (vas.headD []).length) ∧
    m.format = fmt ∧
    m.vertexData = packVertexByteData pA fmt vas m.unpackingParams ∧
    m.indexData = packIndexData k tris ∧
    m.attributeBounds = computeAttributeBounds fmt vas ∧
    (m.attributeBounds = none →
      m.unpackingParams = makeCodingParamsArrayForEmptyMesh fmt) := by
  unfold Mesh.create at h
  by_cases h1 : fmt.totalComponents ≠ vas.length
  · rw [if_pos h1] at h; exact Except.noConfusion h
  rw [if_neg h1] at h
  by_cases h2 : 2 ^ (8 * k) < (vas.headD []).length
  · rw [if_pos h2] at h; exact Except.noConfusion h
  rw [if_neg h2] at h
  cases hu : firstUnequalFrom (vas.drop 1) 1 (vas.headD []).length with
  | some p => rw [hu] at h; exact Except.noConfusion h
  | none =>
  rw [hu] at h
  cases hf : firstNonFinite vas 0 with
  | some i => rw [hf] at h; exact Except.noConfusion h
  | none =>
  rw [hf] at h
  by_cases h5 : tris.length % 3 ≠ 0
  · rw [if_pos h5] at h; exact Except.noConfusion h
  rw [if_neg h5] at h
  by_cases h6 : (tris.all fun t => decide (t < (vas.headD []).length)) = false
  · rw [if_pos h6] at h; exact Except.noConfusion h
  rw [if_neg h6] at h
  have htris : ∀ i ∈ tris, i < (vas.headD []).length := by
    have h6t : (tris.all fun t => decide (t < (vas.headD []).length))
        = true := by
      cases hv : (tris.all fun t => decide (t < (vas.headD []).length)) with
      | false => exact absurd hv h6
      | true => rfl
    rw [List.all_eq_true] at h6t
    intro i hi
    exact of_decide_eq_true (h6t i hi)
  split at h
  · next p heq => exact Option.noConfusion heq
  · split at h
    · next i heq => exact Option.noConfusion heq
    · split at h
      · next bounds hb =>
        split at h
        · exact Except.noConfusion h
        · next cps hr =>
          obtain rfl := Except.ok.inj h
          exact ⟨not_ne_iff.mp h1, not_lt.mp h2, cols_eq_of_scan_none hu,
            (firstNonFinite_eq_none_iff vas 0).mp hf, not_ne_iff.mp h5,
            htris, rfl, rfl, rfl, hb.symm,
            fun hcontra => Option.noConfusion hcontra⟩
      · next hb =>
        obtain rfl := Except.ok.inj h
        exact ⟨not_ne_iff.mp h1, not_lt.mp h2, cols_eq_of_scan_none hu,
          (firstNonFinite_eq_none_iff vas 0).mp hf, not_ne_iff.mp h5,
          htris, rfl, rfl, rfl, hb.symm, fun _ => rfl⟩

/-! ### Concrete fixtures for witnesses -/

/-- One-attribute format (one component, offset 0, one byte) for concrete
examples. -/
def exFormat1 : MeshFormat := ⟨[⟨1, 0, 1⟩]⟩

/-- Resolver instance for concrete examples: identity params for every
component. -/
def exResolver : ResolverFn := fun f _ _ =>
  .ok (makeCodingParamsArrayForEmptyMesh f)

/-- Pack routine instance for concrete examples: fills the attribute's
packed field with zero bytes. -/
def exPackAttr : PackFn := fun a _ _ => List.replicate a.packedWidth 0

/-- Unpack routine instance for concrete examples. -/
def exUnpack : UnpackFn := fun a _ _ =>
  List.replicate a.componentCount (FloatM.fin 0)

/-- A mesh successfully built by `Mesh.create` on two vertices and one
triangle, used by several witnesses. -/
def exMesh : Mesh :=
  (Mesh.create 1 exResolver exPackAttr exFormat1
    [[FloatM.fin 0, FloatM.fin 1]] [0, 1, 0] []).toOption.getD default

/-! ### Claim C1 -/

/-- C1: `Mesh::Create` validates fail-fast in the order (1) column count,
(2) vertex-count limit, (3) equal column lengths, (4) finiteness,
(5) triangle count divisible by 3, (6) triangle indices in range; on an
input violating several rules the reported error is that of the earliest
violated rule, and no mesh is produced; when no rule is violated the only
possible error is the one propagated from the external resolver. -/
theorem claim1_validation_order (k : Nat) (r : ResolverFn) (pA : PackFn)
    (fmt : MeshFormat) (vas : List (List FloatM)) (tris : List Nat)
    (pp : List (Option MeshAttributeCodingParams)) :
    (rule1Violated fmt vas →
      Mesh.create k r pA fmt vas tris pp
        = .error (.wrongNumAttrs fmt.totalComponents vas.length)) ∧
    (¬ rule1Violated fmt vas → rule2Violated k vas →
      Mesh.create k r pA fmt vas tris pp
        = .error (.tooManyVertices (vas.headD []).length (2 ^ (8 * k)))) ∧
    (¬ rule1Violated fmt vas → ¬ rule2Violated k vas → rule3Violated vas →
      ∃ i f, 1 ≤ i ∧ (vas.getD i []).length = f ∧
        f ≠ (vas.headD []).length ∧
        Mesh.create k r pA fmt vas tris pp
          = .error (.unequalLengths i f (vas.headD []).length)) ∧
    (¬ rule1Violated fmt vas → ¬ rule2Violated k vas → ¬ rule3Violated vas →
      rule4Violated vas →
      ∃ i, (∃ x ∈ vas.getD i [], isFinite x = false) ∧
        Mesh.create k r pA fmt vas tris pp = .error (.nonFinite i)) ∧
    (¬ rule1Violated fmt vas → ¬ rule2Violated k vas → ¬ rule3Violated vas →
      ¬ rule4Violated vas → rule5Violated tris →
      Mesh.create k r pA fmt vas tris pp
        = .error (.notDivisibleBy3 tris.length)) ∧
    (¬ rule1Violated fmt vas → ¬ rule2Violated k vas → ¬ rule3Violated vas →
      ¬ rule4Violated vas → ¬ rule5Violated tris → rule6Violated vas tris →
      Mesh.create k r pA fmt vas tris pp
        = .error (.triangleIndexOutOfRange (vas.headD []).length)) ∧
    (¬ rule1Violated fmt vas → ¬ rule2Violated k vas → ¬ rule3Violated vas →
      ¬ rule4Violated vas → ¬ rule5Violated tris →
      ¬ rule6Violated vas tris →
      (∃ m, Mesh.create k r pA fmt vas tris pp = .ok m) ∨
      (∃ e, Mesh.create k r pA fmt vas tris pp
        = .error (.resolverError e))) :=
  create_violation_cases k r pA fmt vas tris pp

/-- C1 witness: on an input passing rules 1-5 and violating rule 6, the
reported error is the rule-6 error. -/
theorem claim1_validation_order_witness :
    Mesh.create 1 exResolver exPackAttr exFormat1 [[FloatM.fin 0]]
      [5, 0, 0] [] = .error (.triangleIndexOutOfRange 1) :=
  (claim1_validation_order 1 exResolver exPackAttr exFormat1
      [[FloatM.fin 0]] [5, 0, 0] []).2.2.2.2.2.1
    (by unfold rule1Violated; decide)
    (by unfold rule2Violated; decide)
    (by unfold rule3Violated; decide)
    (by unfold rule4Violated; decide)
    (by unfold rule5Violated; decide)
    ⟨5, by decide, by decide⟩

/-! ### Claim C6 -/

/-- C6: given the correct column count (rule 1), `Mesh::Create` rejects with
the range error exactly the inputs whose vertex count exceeds
`2^(8·kBytesPerIndex)`; a vertex count of at most that bound is never
rejected for this reason. -/
theorem claim6_vertex_count_limit (k : Nat) (r : ResolverFn) (pA : PackFn)
    (fmt : MeshFormat) (vas : List (List FloatM)) (tris : List Nat)
    (pp : List (Option MeshAttributeCodingParams))
    (h1 : fmt.totalComponents = vas.length) :
    Mesh.create k r pA fmt vas tris pp
        = .error (.tooManyVertices (vas.headD []).length (2 ^ (8 * k)))
      ↔ 2 ^ (8 * k) < (vas.headD []).length := by
  have V := create_violation_cases k r pA fmt vas tris pp
  have hn1 : ¬ rule1Violated fmt vas := by
    unfold rule1Violated; exact not_ne_iff.mpr h1
  constructor
  · intro h
    by_contra hn
    have hn2 : ¬ rule2Violated k vas := hn
    by_cases h3 : rule3Violated vas
    · obtain ⟨i, f, _, _, _, heq⟩ := V.2.2.1 hn1 hn2 h3
      rw [heq] at h
      exact MeshError.noConfusion (Except.error.inj h)
    by_cases h4 : rule4Violated vas
    · obtain ⟨i, _, heq⟩ := V.2.2.2.1 hn1 hn2 h3 h4
      rw [heq] at h
      exact MeshError.noConfusion (Except.error.inj h)
    by_cases h5 : rule5Violated tris
    · rw [V.2.2.2.2.1 hn1 hn2 h3 h4 h5] at h
      exact MeshError.noConfusion (Except.error.inj h)
    by_cases h6 : rule6Violated vas tris
    · rw [V.2.2.2.2.2.1 hn1 hn2 h3 h4 h5 h6] at h
      exact MeshError.noConfusion (Except.error.inj h)
    rcases V.2.2.2.2.2.2 hn1 hn2 h3 h4 h5 h6 with ⟨m, hm⟩ | ⟨e, he⟩
    · rw [hm] at h
      exact Except.noConfusion h
    · rw [he] at h
      exact MeshError.noConfusion (Except.error.inj h)
  · intro h
    exact V.2.1 hn1 h

set_option maxRecDepth 4000 in
/-- C6 witness: with one-byte indices (limit 256), a column of 257 values is
rejected with the range error. -/
theorem claim6_vertex_count_limit_witness :
    Mesh.create 1 exResolver exPackAttr exFormat1
        [List.replicate 257 (FloatM.fin 0)] [] []
      = .error (.tooManyVertices
          (([List.replicate 257 (FloatM.fin 0)].headD []).length)
          (2 ^ (8 * 1))) :=
  (claim6_vertex_count_limit 1 exResolver exPackAttr exFormat1
      [List.replicate 257 (FloatM.fin 0)] [] [] (by decide)).mpr
    (by decide)

/-! ### Claim C8 -/

/-- C8 counterexample: two inputs whose only difference is the value of the
offending out-of-range triangle index (5 vs 6) produce the same error, so
the error does not identify the offending index; it carries only the
expected bound (the vertex count). -/
theorem claim8_counterexample :
    Mesh.create 1 exResolver exPackAttr exFormat1
        [[FloatM.fin 0, FloatM.fin 1, FloatM.fin 2]] [5, 0, 0] []
      = Mesh.create 1 exResolver exPackAttr exFormat1
        [[FloatM.fin 0, FloatM.fin 1, FloatM.fin 2]] [0, 6, 0] []
    ∧ Mesh.create 1 exResolver exPackAttr exFormat1
        [[FloatM.fin 0, FloatM.fin 1, FloatM.fin 2]] [5, 0, 0] []
      = .error (.triangleIndexOutOfRange 3) :=
  ⟨rfl, rfl⟩

/-- C8 (amended): every validation error of `Mesh::Create` carries the
expected-versus-found quantities of its rule: the column-count error carries
expected and found counts, the vertex-limit error the found count and the
bound, the unequal-lengths error the offending column index with its found
and expected lengths, the finiteness error the offending column index, the
divisibility error the found count, and the out-of-range triangle-index
error the expected bound (the vertex count) but not the offending index. -/
theorem claim8_error_payloads (k : Nat) (r : ResolverFn) (pA : PackFn)
    (fmt : MeshFormat) (vas : List (List FloatM)) (tris : List Nat)
    (pp : List (Option MeshAttributeCodingParams)) (e : MeshError)
    (h : Mesh.create k r pA fmt vas tris pp = .error e) :
    (match e with
      | .wrongNumAttrs expected found =>
          expected = fmt.totalComponents ∧ found = vas.length ∧
            expected ≠ found
      | .tooManyVertices found mx =>
          found = (vas.headD []).length ∧ mx = 2 ^ (8 * k) ∧ mx < found
      | .unequalLengths i f expected =>
          1 ≤ i ∧ (vas.getD i []).length = f ∧
            expected = (vas.headD []).length ∧ f ≠ expected
      | .nonFinite i => ∃ x ∈ vas.getD i [], isFinite x = false
      | .notDivisibleBy3 c => c = tris.length ∧ c % 3 ≠ 0
      | .triangleIndexOutOfRange v =>
          v = (vas.headD []).length ∧ ∃ j ∈ tris, v ≤ j
      | .resolverError _ => True) := by
  unfold Mesh.create at h
  by_cases h1 : fmt.totalComponents ≠ vas.length
  · rw [if_pos h1] at h
    obtain rfl := (Except.error.inj h).symm
    exact ⟨rfl, rfl, h1⟩
  rw [if_neg h1] at h
  by_cases h2 : 2 ^ (8 * k) < (vas.headD []).length
  · rw [if_pos h2] at h
    obtain rfl := (Except.error.inj h).symm
    exact ⟨rfl, rfl, h2⟩
  rw [if_neg h2] at h
  cases hu : firstUnequalFrom (vas.drop 1) 1 (vas.headD []).length with
  | some p =>
    rw [hu] at h
    obtain rfl := (Except.error.inj h).symm
    obtain ⟨hp1, hp2, hp3⟩ :=
      firstUnequalFrom_eq_some (vas.headD []).length (vas.drop 1) 1 p.1 p.2
        (by rw [hu])
    refine ⟨hp1, ?_, rfl, hp3⟩
    rw [getD_drop_nat vas 1 (p.1 - 1) []] at hp2
    have hix : 1 + (p.1 - 1) = p.1 := by omega
    rwa [hix] at hp2
  | none =>
  rw [hu] at h
  cases hf : firstNonFinite vas 0 with
  | some i =>
    rw [hf] at h
    obtain rfl := (Except.error.inj h).symm
    obtain ⟨_, hx⟩ := firstNonFinite_eq_some vas 0 i hf
    simpa using hx
  | none =>
  rw [hf] at h
  by_cases h5 : tris.length % 3 ≠ 0
  · rw [if_pos h5] at h
    obtain rfl := (Except.error.inj h).symm
    exact ⟨rfl, h5⟩
  rw [if_neg h5] at h
  by_cases h6 : (tris.all fun t => decide (t < (vas.headD []).length)) = false
  · rw [if_pos h6] at h
    obtain rfl := (Except.error.inj h).symm
    exact ⟨rfl, (rule6_iff_all vas tris).mpr h6⟩
  rw [if_neg h6] at h
  split at h
  · next p heq => exact Option.noConfusion heq
  · split at h
    · next i heq => exact Option.noConfusion heq
    · split at h
      · next bounds hb =>
        split at h
        · next e2 hr =>
          obtain rfl := (Except.error.inj h).symm
          trivial
        · next cps hr => exact Except.noConfusion h
      · next hb => exact Except.noConfusion h

/-- C8 witness: on an input with the wrong column count, the error carries
the expected component count and the found column count. -/
theorem claim8_error_payloads_witness :
    Mesh.create 1 exResolver exPackAttr exFormat1 [] [] []
        = .error (.wrongNumAttrs 1 0)
      ∧ (1 = exFormat1.totalComponents ∧
          (0 : Nat) = ([] : List (List FloatM)).length ∧ (1 : Nat) ≠ 0) :=
  ⟨rfl, claim8_error_payloads 1 exResolver exPackAttr exFormat1 [] [] []
    (.wrongNumAttrs 1 0) rfl⟩

/-! ### Claim C9 -/

/-- C9 counterexample: an input with an empty first column and a non-empty
triangle-index sequence `[0]` is rejected with the divisibility (shape)
error, not a range error — rule 5 fires before the index-range rule. -/
theorem claim9_counterexample :
    Mesh.create 1 exResolver exPackAttr exFormat1 [[]] [0] []
      = .error (.notDivisibleBy3 1) := rfl

/-- C9 (amended): an input with an empty first column and a non-empty
triangle-index sequence that passes the earlier rules (1-5) is rejected
with the range error at bound 0, since no index is below a vertex count of
zero; and every successfully constructed zero-vertex mesh has an empty
packed index buffer. -/
theorem claim9_zero_vertices (k : Nat) (r : ResolverFn) (pA : PackFn)
    (fmt : MeshFormat) (vas : List (List FloatM)) (tris : List Nat)
    (pp : List (Option MeshAttributeCodingParams)) :
    ((vas.headD []).length = 0 → tris ≠ [] →
      ¬ rule1Violated fmt vas → ¬ rule3Violated vas → ¬ rule4Violated vas →
      ¬ rule5Violated tris →
      Mesh.create k r pA fmt vas tris pp
        = .error (.triangleIndexOutOfRange 0)) ∧
    (∀ m, Mesh.create k r pA fmt vas tris pp = .ok m →
      (vas.headD []).length = 0 → m.indexData = []) := by
  constructor
  · intro h0 hne h1 h3 h4 h5
    have h2 : ¬ rule2Violated k vas := by
      unfold rule2Violated
      rw [h0]
      exact Nat.not_lt_zero _
    have h6 : rule6Violated vas tris := by
      unfold rule6Violated
      cases tris with
      | nil => exact absurd rfl hne
      | cons t ts => exact ⟨t, List.mem_cons_self t ts, by omega⟩
    have := (create_violation_cases k r pA fmt vas tris pp).2.2.2.2.2.1
      h1 h2 h3 h4 h5 h6
    rwa [h0] at this
  · intro m hm h0
    obtain ⟨_, _, _, _, _, htri, _, _, hind, _⟩ := create_ok_inv hm
    have htris : tris = [] := by
      cases tris with
      | nil => rfl
      | cons t ts =>
        have := htri t (List.mem_cons_self t ts)
        omega
    rw [hind, htris]
    rfl

/-- C9 witness: zero vertices with triangle indices `[0, 0, 0]` (passing
rules 1-5) yield the range error at bound 0. -/
theorem claim9_zero_vertices_witness :
    Mesh.create 1 exResolver exPackAttr exFormat1 [[]] [0, 0, 0] []
      = .error (.triangleIndexOutOfRange 0) :=
  (claim9_zero_vertices 1 exResolver exPackAttr exFormat1 [[]]
      [0, 0, 0] []).1 (by decide) (by decide)
    (by unfold rule1Violated; decide)
    (by unfold rule3Violated; decide)
    (by unfold rule4Violated; decide)
    (by unfold rule5Violated; decide)

/-! ### Claim C2 -/

theorem stride_pos_of_valid {fmt : MeshFormat} (h : fmt.valid) :
    1 ≤ fmt.packedVertexStride := by
  obtain ⟨hne, hattr, _⟩ := h
  unfold MeshFormat.packedVertexStride
  cases hfa : fmt.attributes with
  | nil => exact absurd hfa hne
  | cons a rest =>
    simp only [List.map_cons, List.sum_cons]
    have := (hattr a (by rw [hfa]; exact List.mem_cons_self a rest)).2.2
    omega

/-- C2: for every valid input accepted by `Mesh::Create` (under the format
invariant), the constructed mesh's vertex count equals the length of the
first float column, and the packed vertex buffer's byte length equals
`vertex_count × packed vertex stride`. -/
theorem claim2_vertex_count_and_buffer_length (k : Nat) (r : ResolverFn)
    (pA : PackFn) (fmt : MeshFormat) (vas : List (List FloatM))
    (tris : List Nat) (pp : List (Option MeshAttributeCodingParams))
    (m : Mesh) (hfmt : fmt.valid)
    (h : Mesh.create k r pA fmt vas tris pp = .ok m) :
    m.vertexCount = (vas.headD []).length ∧
    m.vertexData.length = m.vertexCount * m.format.packedVertexStride := by
  obtain ⟨_, _, _, _, _, _, hfm, hvd, _, _⟩ := create_ok_inv h
  have hstride := stride_pos_of_valid hfmt
  have hlen : m.vertexData.length
      = (vas.headD []).length * fmt.packedVertexStride := by
    rw [hvd, packVertexByteData_length]
  have hvc : m.vertexCount = (vas.headD []).length := by
    unfold Mesh.vertexCount
    rw [hlen, hfm, Nat.mul_div_cancel _ (by omega)]
  refine ⟨hvc, ?_⟩
  rw [hlen, hvc, hfm]

/-- C2 witness: the two-vertex one-byte-stride example mesh has vertex count
2 and a 2-byte packed vertex buffer. -/
theorem claim2_vertex_count_and_buffer_length_witness :
    exMesh.vertexCount = 2 ∧
    exMesh.vertexData.length
      = exMesh.vertexCount * exMesh.format.packedVertexStride :=
  claim2_vertex_count_and_buffer_length 1 exResolver exPackAttr exFormat1
    [[FloatM.fin 0, FloatM.fin 1]] [0, 1, 0] [] exMesh
    ⟨by decide, by decide, by decide⟩ rfl

/-! ### Claim C3 -/

/-- C3: for every input accepted by `Mesh::Create` and every triangle `t`,
unpacking triangle `t` from the packed fixed-width index buffer (bytes
`[t·3·kBytesPerIndex, (t+1)·3·kBytesPerIndex)`) returns exactly the
original three indices. -/
theorem claim3_triangle_index_roundtrip (k : Nat) (r : ResolverFn)
    (pA : PackFn) (fmt : MeshFormat) (vas : List (List FloatM))
    (tris : List Nat) (pp : List (Option MeshAttributeCodingParams))
    (m : Mesh) (t : Nat)
    (h : Mesh.create k r pA fmt vas tris pp = .ok m)
    (ht : t < tris.length / 3) :
    readTriangleIndices k m.indexData t
      = [tris.getD (3 * t) 0, tris.getD (3 * t + 1) 0,
          tris.getD (3 * t + 2) 0] := by
  obtain ⟨_, hmax, _, _, h3, hidx, _, _, hind, _⟩ := create_ok_inv h
  rw [hind]
  apply readTriangleIndices_packIndexData k tris t h3 (by omega)
  intro i hi
  have hlt := hidx i hi
  have hpow : (2 : Nat) ^ (8 * k) = 256 ^ k := by
    rw [pow_mul]
    norm_num
  omega

/-- C3 witness: triangle 0 of the example mesh unpacks to its original
indices `[0, 1, 0]`. -/
theorem claim3_triangle_index_roundtrip_witness :
    readTriangleIndices 1 exMesh.indexData 0 = [0, 1, 0] :=
  claim3_triangle_index_roundtrip 1 exResolver exPackAttr exFormat1
    [[FloatM.fin 0, FloatM.fin 1]] [0, 1, 0] [] exMesh 0 rfl (by decide)

/-! ### Claim C4 -/

theorem create_eq_of_bounds_none (k : Nat) (r : ResolverFn) (pA : PackFn)
    (fmt : MeshFormat) (vas : List (List FloatM)) (tris : List Nat)
    (pp : List (Option MeshAttributeCodingParams))
    (hb : computeAttributeBounds fmt vas = none) :
    Mesh.create k r pA fmt vas tris pp =
      (if fmt.totalComponents ≠ vas.length then
        .error (.wrongNumAttrs fmt.totalComponents vas.length) else
      if 2 ^ (8 * k) < (vas.headD []).length then
        .error (.tooManyVertices (vas.headD []).length (2 ^ (8 * k))) else
      match firstUnequalFrom (vas.drop 1) 1 (vas.headD []).length with
      | some p => .error (.unequalLengths p.1 p.2 (vas.headD []).length)
      | none =>
      match firstNonFinite vas 0 with
      | some i => .error (.nonFinite i)
      | none =>
      if tris.length % 3 ≠ 0 then .error (.notDivisibleBy3 tris.length) else
      if (tris.all fun t => decide (t < (vas.headD []).length)) = false then
        .error (.triangleIndexOutOfRange (vas.headD []).length) else
      .ok ⟨fmt, makeCodingParamsArrayForEmptyMesh fmt, none,
        packVertexByteData pA fmt vas (makeCodingParamsArrayForEmptyMesh fmt),
        packIndexData k tris⟩) := by
  unfold Mesh.create
  by_cases h1 : fmt.totalComponents ≠ vas.length
  · simp only [if_pos h1]
  simp only [if_neg h1]
  by_cases h2 : 2 ^ (8 * k) < (vas.headD []).length
  · simp only [if_pos h2]
  simp only [if_neg h2]
  cases hu : firstUnequalFrom (vas.drop 1) 1 (vas.headD []).length with
  | some p => rfl
  | none =>
  cases hf : firstNonFinite vas 0 with
  | some i => rfl
  | none =>
  by_cases h5 : tris.length % 3 ≠ 0
  · simp only [if_pos h5]
  simp only [if_neg h5]
  by_cases h6 : (tris.all fun t => decide (t < (vas.headD []).length)) = false
  · simp only [if_pos h6]
  simp only [if_neg h6]
  rw [hb]

/-- C4: for every zero-vertex input, the result of `Mesh::Create` does not
depend on the external parameter resolver (it is never invoked), and every
successfully constructed zero-vertex mesh has no attribute bounds and
identity quantization parameters (offset 0, scale 1) for every component of
every attribute. -/
theorem claim4_empty_mesh (k : Nat) (pA : PackFn) (fmt : MeshFormat)
    (vas : List (List FloatM)) (tris : List Nat)
    (pp : List (Option MeshAttributeCodingParams))
    (h0 : (vas.headD []).length = 0) :
    (∀ r1 r2 : ResolverFn,
      Mesh.create k r1 pA fmt vas tris pp
        = Mesh.create k r2 pA fmt vas tris pp) ∧
    (∀ (r : ResolverFn) (m : Mesh),
      Mesh.create k r pA fmt vas tris pp = .ok m →
      m.attributeBounds = none ∧
      ∀ a, a < fmt.attributes.length →
        (m.unpackingParams.getD a default).components
          = List.replicate (fmt.attributes.getD a default).componentCount
              ⟨0, 1⟩) := by
  have hb : computeAttributeBounds fmt vas = none := by
    unfold computeAttributeBounds
    rw [if_pos (by rw [List.isEmpty_iff, ← List.length_eq_zero]; exact h0)]
  constructor
  · intro r1 r2
    rw [create_eq_of_bounds_none k r1 pA fmt vas tris pp hb,
      create_eq_of_bounds_none k r2 pA fmt vas tris pp hb]
  · intro r m hm
    obtain ⟨_, _, _, _, _, _, _, _, _, hbm, hpar⟩ := create_ok_inv hm
    have hbnone : m.attributeBounds = none := by rw [hbm, hb]
    refine ⟨hbnone, ?_⟩
    intro a ha
    rw [hpar hbnone]
    unfold makeCodingParamsArrayForEmptyMesh
    rw [List.getD_eq_getElem _ _ (by rw [List.length_map]; exact ha),
      List.getElem_map, List.getD_eq_getElem _ _ ha]

/-- C4 witness: on a zero-vertex input, a resolver that always fails gives
the same result as one that succeeds, and the built mesh has no bounds and
identity params. -/
theorem claim4_empty_mesh_witness :
    (Mesh.create 1 (fun _ _ _ => .error "boom") exPackAttr exFormat1
        [[]] [] [] = Mesh.create 1 exResolver exPackAttr exFormat1
        [[]] [] []) ∧
    ((Mesh.create 1 exResolver exPackAttr exFormat1 [[]] [] []).toOption.getD
        default).attributeBounds = none :=
  have h := claim4_empty_mesh 1 exPackAttr exFormat1 [[]] [] [] rfl
  ⟨h.1 (fun _ _ _ => .error "boom") exResolver,
    (h.2 exResolver _ rfl).1⟩

/-! ### Claim C10 -/

theorem spanStart_le_total (fmt : MeshFormat) (a : Nat)
    (ha : a < fmt.attributes.length) :
    fmt.spanStart a + (fmt.attributes.getD a default).componentCount
      ≤ fmt.totalComponents := by
  unfold MeshFormat.spanStart MeshFormat.totalComponents
  rw [List.getD_eq_getElem _ _ ha]
  have h1 : fmt.attributes.take (a + 1)
      = fmt.attributes.take a ++ [fmt.attributes[a]] := by
    rw [List.take_succ, List.getElem?_eq_getElem ha]
    rfl
  have h2 : ((fmt.attributes.take (a + 1)).map
        (fun x => x.componentCount)).sum
      ≤ ((fmt.attributes.map (fun x => x.componentCount))).sum := by
    conv_rhs => rw [← List.take_append_drop (a + 1) fmt.attributes]
    rw [List.map_append, List.sum_append]
    omega
  rw [h1, List.map_append, List.sum_append] at h2
  simpa using h2

theorem totalComponents_pos (fmt : MeshFormat)
    (hne : fmt.attributes ≠ [])
    (hcc : ∀ a ∈ fmt.attributes, 1 ≤ a.componentCount) :
    1 ≤ fmt.totalComponents := by
  unfold MeshFormat.totalComponents
  cases hfa : fmt.attributes with
  | nil => exact absurd hfa hne
  | cons a rest =>
    simp only [List.map_cons, List.sum_cons]
    have := hcc a (by rw [hfa]; exact List.mem_cons_self a rest)
    omega

/-- C10: whenever `ComputeAttributeBounds` is reached from `Mesh::Create`
(the column-count rule has passed against a non-empty format whose
attributes have positive component counts, and the columns have equal
lengths), the span sequence is non-empty, so the `CHECK` at its entry never
fails; and every per-component min/max lookup addresses an in-range column
which is non-empty whenever the vertex count is non-zero (when it is zero
the function returns before any lookup). -/
theorem claim10_bounds_reachability (fmt : MeshFormat)
    (vas : List (List FloatM))
    (hne : fmt.attributes ≠ [])
    (hcc : ∀ a ∈ fmt.attributes, 1 ≤ a.componentCount)
    (hcount : fmt.totalComponents = vas.length)
    (hlen : ∀ c ∈ vas, c.length = (vas.headD []).length) :
    vas ≠ [] ∧
    (∀ a c, a < fmt.attributes.length →
      c < (fmt.attributes.getD a default).componentCount →
        fmt.spanStart a + c < vas.length ∧
        ((vas.headD []) ≠ [] → vas.getD (fmt.spanStart a + c) [] ≠ [])) := by
  have hpos : 1 ≤ vas.length := by
    rw [← hcount]
    exact totalComponents_pos fmt hne hcc
  refine ⟨by rw [← List.length_pos]; omega, ?_⟩
  intro a c ha hc
  have hin : fmt.spanStart a + c < vas.length := by
    have := spanStart_le_total fmt a ha
    omega
  refine ⟨hin, ?_⟩
  intro hhead
  have hcol : vas.getD (fmt.spanStart a + c) [] ∈ vas := by
    rw [List.getD_eq_getElem _ _ hin]
    exact List.getElem_mem hin
  have hclen := hlen _ hcol
  intro hnil
  rw [hnil] at hclen
  exact hhead (List.length_eq_zero.mp hclen.symm)

/-- C10 witness: a one-attribute format and a single matching column
satisfy the reachability conditions; the first lookup is in range. -/
theorem claim10_bounds_reachability_witness :
    ([[FloatM.fin 0]] : List (List FloatM)) ≠ [] ∧
    exFormat1.spanStart 0 + 0
      < ([[FloatM.fin 0]] : List (List FloatM)).length :=
  have h := claim10_bounds_reachability exFormat1 [[FloatM.fin 0]]
    (by decide) (by decide) (by decide) (by decide)
  ⟨h.1, (h.2 0 0 (by decide) (by decide)).1⟩

/-! ### Claim C5: min/max machinery -/

/-- The rational carried by a finite float value (0 for non-finite ones;
only used on finite values). -/
def toQ : FloatM → ℚ
  | .fin q => q
  | _ => 0

/-- Value of the running minimum of `std::minmax_element` over rationals. -/
def qminFold (a : ℚ) (l : List ℚ) : ℚ :=
  l.foldl (fun acc q => if q < acc then q else acc) a

/-- Value of the running maximum of `std::minmax_element` over rationals. -/
def qmaxFold (a : ℚ) (l : List ℚ) : ℚ :=
  l.foldl (fun acc q => if acc < q then q else acc) a

theorem qminFold_le_init : ∀ (l : List ℚ) (a : ℚ), qminFold a l ≤ a := by
  intro l
  induction l with
  | nil => intro a; exact le_refl a
  | cons q l ih =>
    intro a
    refine le_trans (ih (if q < a then q else a)) ?_
    by_cases hq : q < a
    · rw [if_pos hq]; exact le_of_lt hq
    · rw [if_neg hq]

theorem le_qmaxFold_init : ∀ (l : List ℚ) (a : ℚ), a ≤ qmaxFold a l := by
  intro l
  induction l with
  | nil => intro a; exact le_refl a
  | cons q l ih =>
    intro a
    refine le_trans ?_ (ih (if a < q then q else a))
    by_cases hq : a < q
    · rw [if_pos hq]; exact le_of_lt hq
    · rw [if_neg hq]

theorem qminFold_le_mem : ∀ (l : List ℚ) (a q : ℚ), q ∈ l →
    qminFold a l ≤ q := by
  intro l
  induction l with
  | nil => intro a q hq; exact absurd hq (List.not_mem_nil q)
  | cons x l ih =>
    intro a q hq
    rcases List.mem_cons.mp hq with rfl | hm
    · refine le_trans (qminFold_le_init l (if q < a then q else a)) ?_
      by_cases hx : q < a
      · rw [if_pos hx]
      · rw [if_neg hx]; exact le_of_not_lt hx
    · exact ih (if x < a then x else a) q hm

theorem mem_le_qmaxFold : ∀ (l : List ℚ) (a q : ℚ), q ∈ l →
    q ≤ qmaxFold a l := by
  intro l
  induction l with
  | nil => intro a q hq; exact absurd hq (List.not_mem_nil q)
  | cons x l ih =>
    intro a q hq
    rcases List.mem_cons.mp hq with rfl | hm
    · refine le_trans ?_ (le_qmaxFold_init l (if a < q then q else a))
      by_cases hx : a < q
      · rw [if_pos hx]
      · rw [if_neg hx]; exact le_of_not_lt hx
    · exact ih (if a < x then x else a) q hm

theorem qminFold_const : ∀ (l : List ℚ) (a : ℚ), (∀ q ∈ l, q = a) →
    qminFold a l = a := by
  intro l
  induction l with
  | nil => intro a _; rfl
  | cons x l ih =>
    intro a h
    have hx : x = a := h x (List.mem_cons_self x l)
    subst hx
    show qminFold (if x < x then x else x) l = x
    rw [if_neg (lt_irrefl x)]
    exact ih x (fun q hq => h q (List.mem_cons_of_mem x hq))

theorem qmaxFold_const : ∀ (l : List ℚ) (a : ℚ), (∀ q ∈ l, q = a) →
    qmaxFold a l = a := by
  intro l
  induction l with
  | nil => intro a _; rfl
  | cons x l ih =>
    intro a h
    have hx : x = a := h x (List.mem_cons_self x l)
    subst hx
    show qmaxFold (if x < x then x else x) l = x
    rw [if_neg (lt_irrefl x)]
    exact ih x (fun q hq => h q (List.mem_cons_of_mem x hq))

theorem isFinite_iff_fin (x : FloatM) :
    isFinite x = true ↔ ∃ q : ℚ, x = .fin q := by
  cases x <;> simp [isFinite]

theorem minmax_foldl_finite :
    ∀ (xs : List FloatM) (a b : ℚ), (∀ y ∈ xs, isFinite y = true) →
      xs.foldl (fun p y =>
          (if flt y p.1 then y else p.1, if flt p.2 y then y else p.2))
        (.fin a, .fin b)
      = (.fin (qminFold a (xs.map toQ)), .fin (qmaxFold b (xs.map toQ))) := by
  intro xs
  induction xs with
  | nil => intro a b _; rfl
  | cons y ys ih =>
    intro a b h
    obtain ⟨qy, rfl⟩ := (isFinite_iff_fin y).mp (h y (List.mem_cons_self y ys))
    have hmin : (if flt (FloatM.fin qy) (FloatM.fin a)
        then FloatM.fin qy else FloatM.fin a)
        = FloatM.fin (if qy < a then qy else a) := by
      by_cases hq : qy < a
      · rw [if_pos hq]
        show (if decide (qy < a) = true then _ else _) = _
        rw [if_pos (decide_eq_true hq)]
      · rw [if_neg hq]
        show (if decide (qy < a) = true then _ else _) = _
        rw [if_neg (by simpa using hq)]
    have hmax : (if flt (FloatM.fin b) (FloatM.fin qy)
        then FloatM.fin qy else FloatM.fin b)
        = FloatM.fin (if b < qy then qy else b) := by
      by_cases hq : b < qy
      · rw [if_pos hq]
        show (if decide (b < qy) = true then _ else _) = _
        rw [if_pos (decide_eq_true hq)]
      · rw [if_neg hq]
        show (if decide (b < qy) = true then _ else _) = _
        rw [if_neg (by simpa using hq)]
    rw [List.foldl_cons]
    rw [show ((if flt (FloatM.fin qy) (FloatM.fin a)
        then FloatM.fin qy else FloatM.fin a,
        if flt (FloatM.fin b) (FloatM.fin qy)
        then FloatM.fin qy else FloatM.fin b))
      = ((FloatM.fin (if qy < a then qy else a),
          FloatM.fin (if b < qy then qy else b)) :
          FloatM × FloatM) by rw [hmin, hmax]]
    rw [ih _ _ (fun z hz => h z (List.mem_cons_of_mem _ hz))]
    rfl

theorem minmaxFold_finite_cons (q : ℚ) (xs : List FloatM)
    (hxs : ∀ y ∈ xs, isFinite y = true) :
    minmaxFold (FloatM.fin q :: xs)
      = (.fin (qminFold q (xs.map toQ)), .fin (qmaxFold q (xs.map toQ))) :=
  minmax_foldl_finite xs q q hxs

theorem boundsLoop_getD :
    ∀ (attrs : List Attribute) (vas : List (List FloatM)) (s a : Nat),
      a < attrs.length →
      (boundsLoop attrs vas s).getD a default
        = ⟨(List.range (attrs.getD a default).componentCount).map
              (fun c => (minmaxFold (vas.getD
                (s + ((attrs.take a).map
                  (fun x => x.componentCount)).sum + c) [])).1),
            (List.range (attrs.getD a default).componentCount).map
              (fun c => (minmaxFold (vas.getD
                (s + ((attrs.take a).map
                  (fun x => x.componentCount)).sum + c) [])).2)⟩ := by
  intro attrs
  induction attrs with
  | nil => intro vas s a ha; simp at ha
  | cons attr rest ih =>
    intro vas s a ha
    match a with
    | 0 =>
      simp only [boundsLoop, List.getD_cons_zero, List.take_zero,
        List.map_nil, List.sum_nil, Nat.add_zero]
    | a' + 1 =>
      simp only [boundsLoop, List.getD_cons_succ, List.take_succ_cons,
        List.map_cons, List.sum_cons]
      rw [ih vas (s + attr.componentCount) a' (by simpa using ha)]
      simp only [Nat.add_assoc]

/-- C5: for every non-empty valid input (correct column count, equal column
lengths, all values finite), for every attribute and every component, the
computed bounds are finite with minimum ≤ maximum, every raw value of that
component's column lies within [minimum, maximum] inclusive, and when the
column's values are all equal the minimum equals the maximum. -/
theorem claim5_bounds_invariant (fmt : MeshFormat) (vas : List (List FloatM))
    (a c : Nat)
    (hcount : fmt.totalComponents = vas.length)
    (hlen : ∀ col ∈ vas, col.length = (vas.headD []).length)
    (hfin : ∀ col ∈ vas, ∀ x ∈ col, isFinite x = true)
    (hne : (vas.headD []).length ≠ 0)
    (ha : a < fmt.attributes.length)
    (hc : c < (fmt.attributes.getD a default).componentCount) :
    ∃ bArr, computeAttributeBounds fmt vas = some bArr ∧
      ∃ m M : ℚ,
        ((bArr.getD a default).minimum).getD c FloatM.nan = .fin m ∧
        ((bArr.getD a default).maximum).getD c FloatM.nan = .fin M ∧
        m ≤ M ∧
        (∀ x ∈ vas.getD (fmt.spanStart a + c) [],
          ∃ q : ℚ, x = .fin q ∧ m ≤ q ∧ q ≤ M) ∧
        ((∀ x ∈ vas.getD (fmt.spanStart a + c) [],
            ∀ y ∈ vas.getD (fmt.spanStart a + c) [], x = y) → m = M) := by
  have hbsome : computeAttributeBounds fmt vas
      = some (boundsLoop fmt.attributes vas 0) := by
    unfold computeAttributeBounds
    rw [if_neg ?hg]
    case hg =>
      intro hcontra
      rw [List.isEmpty_iff] at hcontra
      exact hne (by rw [hcontra]; rfl)
  refine ⟨boundsLoop fmt.attributes vas 0, hbsome, ?_⟩
  have hin : fmt.spanStart a + c < vas.length := by
    have := spanStart_le_total fmt a ha
    omega
  have hmem : vas.getD (fmt.spanStart a + c) [] ∈ vas := by
    rw [List.getD_eq_getElem _ _ hin]
    exact List.getElem_mem hin
  have hclen : (vas.getD (fmt.spanStart a + c) []).length ≠ 0 := by
    rw [hlen _ hmem]
    exact hne
  have hcfin := hfin _ hmem
  obtain ⟨x, xs, hxs⟩ : ∃ x xs, vas.getD (fmt.spanStart a + c) [] = x :: xs := by
    cases hcc : vas.getD (fmt.spanStart a + c) [] with
    | nil => rw [hcc] at hclen; simp at hclen
    | cons x xs => exact ⟨x, xs, rfl⟩
  obtain ⟨q, hq⟩ := (isFinite_iff_fin x).mp
    (hcfin x (by rw [hxs]; exact List.mem_cons_self x xs))
  have hxsfin : ∀ y ∈ xs, isFinite y = true := fun y hy =>
    hcfin y (by rw [hxs]; exact List.mem_cons_of_mem x hy)
  have hminmax : minmaxFold (vas.getD (fmt.spanStart a + c) [])
      = (.fin (qminFold q (xs.map toQ)), .fin (qmaxFold q (xs.map toQ))) := by
    rw [hxs, hq]
    exact minmaxFold_finite_cons q xs hxsfin
  have hb := boundsLoop_getD fmt.attributes vas 0 a ha
  have hidx : ∀ c' : Nat, 0 + ((fmt.attributes.take a).map
      (fun x => x.componentCount)).sum + c' = fmt.spanStart a + c' := by
    intro c'
    unfold MeshFormat.spanStart
    omega
  refine ⟨qminFold q (xs.map toQ), qmaxFold q (xs.map toQ), ?_, ?_, ?_, ?_, ?_⟩
  · rw [hb]
    show ((List.range ((fmt.attributes.getD a default).componentCount)).map
        (fun c' => (minmaxFold (vas.getD
          (0 + ((fmt.attributes.take a).map
            (fun x => x.componentCount)).sum + c') [])).1)).getD c
        FloatM.nan = _
    rw [List.getD_eq_getElem _ _ (by simpa using hc), List.getElem_map,
      List.getElem_range, hidx c, hminmax]
  · rw [hb]
    show ((List.range ((fmt.attributes.getD a default).componentCount)).map
        (fun c' => (minmaxFold (vas.getD
          (0 + ((fmt.attributes.take a).map
            (fun x => x.componentCount)).sum + c') [])).2)).getD c
        FloatM.nan = _
    rw [List.getD_eq_getElem _ _ (by simpa using hc), List.getElem_map,
      List.getElem_range, hidx c, hminmax]
  · exact le_trans (qminFold_le_init _ q) (le_qmaxFold_init _ q)
  · intro x' hx'
    rw [hxs] at hx'
    rcases List.mem_cons.mp hx' with rfl | hm
    · exact ⟨q, hq, qminFold_le_init _ q, le_qmaxFold_init _ q⟩
    · obtain ⟨q', hq'⟩ := (isFinite_iff_fin x').mp (hxsfin x' hm)
      have hq'mem : q' ∈ xs.map toQ := by
        have : toQ x' = q' := by rw [hq']; rfl
        rw [← this]
        exact List.mem_map_of_mem toQ hm
      exact ⟨q', hq', qminFold_le_mem _ q q' hq'mem,
        mem_le_qmaxFold _ q q' hq'mem⟩
  · intro hall
    have hconst : ∀ q' ∈ xs.map toQ, q' = q := by
      intro q' hq'
      obtain ⟨y, hy, rfl⟩ := List.mem_map.mp hq'
      have heq := hall y (by rw [hxs]; exact List.mem_cons_of_mem x hy) x
        (by rw [hxs]; exact List.mem_cons_self x xs)
      rw [heq, hq]
      rfl
    rw [qminFold_const _ q hconst, qmaxFold_const _ q hconst]

/-- C5 witness: a concrete non-empty valid input has computed bounds. -/
theorem claim5_bounds_invariant_witness :
    (computeAttributeBounds exFormat1 [[FloatM.fin 3, FloatM.fin 1]]).isSome
      = true := by
  obtain ⟨bArr, hb, _⟩ := claim5_bounds_invariant exFormat1
    [[FloatM.fin 3, FloatM.fin 1]] 0 0 (by decide) (by decide) (by decide)
    (by decide) (by decide) (by decide)
  rw [hb]
  rfl

/-! ### Claim C7 -/

theorem offset_add_width_le_stride {fmt : MeshFormat} (hfmt : fmt.valid)
    (a : Nat) (ha : a < fmt.attributes.length) :
    (fmt.attributes.getD a default).packedOffset
        + (fmt.attributes.getD a default).packedWidth
      ≤ fmt.packedVertexStride := by
  obtain ⟨_, _, hoff⟩ := hfmt
  rw [hoff a ha]
  unfold MeshFormat.packedVertexStride
  rw [List.getD_eq_getElem _ _ ha]
  have h1 : fmt.attributes.take (a + 1)
      = fmt.attributes.take a ++ [fmt.attributes[a]] := by
    rw [List.take_succ, List.getElem?_eq_getElem ha]
    rfl
  have h2 : ((fmt.attributes.take (a + 1)).map (fun x => x.packedWidth)).sum
      ≤ ((fmt.attributes.map (fun x => x.packedWidth))).sum := by
    conv_rhs => rw [← List.take_append_drop (a + 1) fmt.attributes]
    rw [List.map_append, List.sum_append]
    omega
  rw [h1, List.map_append, List.sum_append] at h2
  simpa using h2

/-- C7: for every mesh constructed by `Mesh::Create` (under the format
invariant), every vertex index below the vertex count and every attribute
index in range, the packed-bytes accessor returns exactly the byte slice
`[v·stride + offset(a), v·stride + offset(a) + width(a))` of the packed
vertex buffer (in particular its length is `width(a)`), and the float
accessor applies the stored quantization parameters of attribute `a` (via
the external unpack routine) to exactly that slice. -/
theorem claim7_accessor_slices (k : Nat) (r : ResolverFn) (pA : PackFn)
    (unpA : UnpackFn) (fmt : MeshFormat) (vas : List (List FloatM))
    (tris : List Nat) (pp : List (Option MeshAttributeCodingParams))
    (m : Mesh) (v a : Nat) (hfmt : fmt.valid)
    (h : Mesh.create k r pA fmt vas tris pp = .ok m)
    (hv : v < m.vertexCount) (ha : a < fmt.attributes.length) :
    m.packedVertexAttribute v a
      = listSlice m.vertexData
          (v * m.format.packedVertexStride
            + (m.format.attributes.getD a default).packedOffset)
          (m.format.attributes.getD a default).packedWidth ∧
    (m.packedVertexAttribute v a).length
      = (m.format.attributes.getD a default).packedWidth ∧
    m.floatVertexAttribute unpA v a
      = unpA (m.format.attributes.getD a default)
          (m.unpackingParams.getD a default)
          (listSlice m.vertexData
            (v * m.format.packedVertexStride
              + (m.format.attributes.getD a default).packedOffset)
            (m.format.attributes.getD a default).packedWidth) := by
  obtain ⟨_, _, _, _, _, _, hfm, hvd, _, _⟩ := create_ok_inv h
  have hdatalen : m.vertexData.length
      = (vas.headD []).length * fmt.packedVertexStride := by
    rw [hvd, packVertexByteData_length]
  have hstride := stride_pos_of_valid hfmt
  have hvc : m.vertexCount = (vas.headD []).length := by
    unfold Mesh.vertexCount
    rw [hdatalen, hfm, Nat.mul_div_cancel _ (by omega)]
  rw [hvc] at hv
  have how := offset_add_width_le_stride hfmt a ha
  have hmul : (v + 1) * fmt.packedVertexStride
      ≤ (vas.headD []).length * fmt.packedVertexStride :=
    Nat.mul_le_mul_right _ (by omega)
  have hmul2 : (v + 1) * fmt.packedVertexStride
      = v * fmt.packedVertexStride + fmt.packedVertexStride := by ring
  have hlen2 : (m.packedVertexAttribute v a).length
      = (m.format.attributes.getD a default).packedWidth := by
    show ((m.vertexData.drop (v * m.format.packedVertexStride
        + (m.format.attributes.getD a default).packedOffset)).take
          (m.format.attributes.getD a default).packedWidth).length
      = (m.format.attributes.getD a default).packedWidth
    rw [List.length_take, List.length_drop, hfm, hdatalen]
    omega
  exact ⟨rfl, hlen2, rfl⟩

/-- C7 witness: vertex 0, attribute 0 of the example mesh yields a packed
slice of exactly the attribute's packed width. -/
theorem claim7_accessor_slices_witness :
    (exMesh.packedVertexAttribute 0 0).length
      = (exMesh.format.attributes.getD 0 default).packedWidth :=
  (claim7_accessor_slices 1 exResolver exPackAttr exUnpack exFormat1
    [[FloatM.fin 0, FloatM.fin 1]] [0, 1, 0] [] exMesh 0 0
    ⟨by decide, by decide, by decide⟩ rfl (by decide) (by decide)).2.1

end InkMesh
